import Mathlib

/-!
Shallow embedding of the task/dependency engine of
`src/build-tools/build-tools.ts` (the incremental build orchestrator):
the staleness evaluation and task runner (`runTask`), the two process
executors (`run` and `runCapture`) and the dependency-closure helper
(`allDepsSorted`), together with theorems settling the specification
claims about them.

Modelling conventions:
* A filesystem entry (`fs.Stats` plus the subtree reachable through
  `fs.readdirSync(..., {recursive: true, withFileTypes: true})`) is a
  finite tree `FSTree` carrying the `mtimeMs` of every entry.  Entry
  names play no role in any timestamp computation (the code only joins
  names back into paths in order to `statSync` the very entry that was
  enumerated), so children are kept as a plain list.
* `statSync` on a declared target/source path is a lookup in a total
  map `String → Option FSTree`; `none` models the `ENOENT` failure.
  Other I/O failures (permissions etc.) are outside the model.
* JavaScript dynamic values are made explicit: a possibly-`undefined`
  string accumulator is an `Option String`, and `undefined + data`
  stringifies `undefined` exactly as JavaScript does.
* Child processes are modelled by the event that settles the promise:
  either the `error` event of a failed spawn, or the `close` event
  carrying the exit code (`null`, i.e. `none`, for signal termination)
  together with the chunks previously delivered by the `data` events.
-/

namespace BuildTools

/-- A filesystem entry: a regular file with its `mtimeMs`, or a
directory with its own `mtimeMs` and its immediate children. -/
inductive FSTree where
  | file (mtimeMs : Int)
  | dir (mtimeMs : Int) (children : List FSTree)

mutual

/-- The `mtimeMs` instants of the regular files at or below an entry,
as enumerated by `readdirSync(..., {recursive: true, withFileTypes:
true})` with directory entries skipped (`if (target.isDirectory())
continue;`): directory entries below the root contribute nothing. -/
def regMtimes : FSTree → List Int
  | .file m => [m]
  | .dir _ children => regMtimesList children

/-- `regMtimes` over a list of sibling entries. -/
def regMtimesList : List FSTree → List Int
  | [] => []
  | t :: ts => regMtimes t ++ regMtimesList ts

end

/-- The target watermark computed by `runTask` (build-tools.ts lines
52-63): `targetModifiedMs` starts as the stat of the target itself
(`targetInfo.mtimeMs`) and, when the target is a directory, is lowered
to any smaller `mtimeMs` found among the regular files recursively
beneath it (`if (targetModifiedMs > targetInfo.mtimeMs) ...`). -/
def watermark : FSTree → Int
  | .file m => m
  | .dir m children =>
      (regMtimesList children).foldl (fun acc t => if acc > t then t else acc) m

/-- The modification instants a source contributes to the staleness
check (build-tools.ts lines 65-85): a plain file contributes its own
`mtimeMs`; a directory contributes the `mtimeMs` of every regular file
recursively beneath it, its own stat being ignored. -/
def sourceMtimes : FSTree → List Int
  | .file m => [m]
  | .dir _ children => regMtimesList children

/-- A task description (the `Task` interface, minus the body, which the
embedding passes to `runTask` separately as a result value). -/
structure Task where
  runMessage : String
  skipMessage : String
  targets : List String
  sources : List String
deriving DecidableEq, Repr

/-- The filesystem failure the staleness check can raise: `statSync` on
a missing source throws `ENOENT`, which `runTask` does not catch. -/
inductive FsError where
  | enoent (path : String)
deriving DecidableEq, Repr

/-- The inner source loop of `runTask` (build-tools.ts lines 65-85) for
one target watermark: stat each source in order (`ENOENT` propagates),
and report staleness as soon as some contributed instant is strictly
newer than the watermark (`sourceInfo.mtimeMs > targetModifiedMs`). -/
def checkSources (fs : String → Option FSTree) (targetModifiedMs : Int) :
    List String → Except FsError Bool
  | [] => .ok false
  | source :: rest =>
      match fs source with
      | none => .error (.enoent source)
      | some sourceInfo =>
          if (sourceMtimes sourceInfo).any (fun t => t > targetModifiedMs) then
            .ok true
          else
            checkSources fs targetModifiedMs rest

/-- The labelled `upToDateCheck` target loop of `runTask`
(build-tools.ts lines 40-86): an absent target (`ENOENT` on its stat)
makes the task stale and stops the loop; otherwise the target's
watermark is compared against every source, and either staleness or a
source error stops the loop. -/
def targetsLoop (fs : String → Option FSTree) (sources : List String) :
    List String → Except FsError Bool
  | [] => .ok false
  | target :: rest =>
      match fs target with
      | none => .ok true
      | some targetInfo =>
          match checkSources fs (watermark targetInfo) sources with
          | .error e => .error e
          | .ok true => .ok true
          | .ok false => targetsLoop fs sources rest

/-- The staleness decision of `runTask` (build-tools.ts lines 37-86):
`run` starts as `task.targets.length == 0` and the target loop (which
can only set it to `true`) runs over the declared targets. -/
def isStale (fs : String → Option FSTree) (task : Task) : Except FsError Bool :=
  if task.targets.length = 0 then .ok true
  else targetsLoop fs task.sources task.targets

/-- The skip line `runTask` prints when the task is up to date
(build-tools.ts line 89). -/
def skipLine (task : Task) : String :=
  String.intercalate "," task.targets ++ " is up to date, skipping " ++ task.skipMessage

/-- What one `runTask` call did: the `console.log` lines it emitted, how
many times it invoked the task body, and the failure it propagated, if
any (either its own filesystem error from the staleness check, or the
body's failure, unchanged). -/
structure TaskRunOutcome (ε : Type) where
  log : List String
  bodyRuns : Nat
  err : Option (FsError ⊕ ε)
deriving DecidableEq, Repr

/-- `runTask` (build-tools.ts lines 36-95): evaluate staleness (an
`ENOENT` on a source propagates); when up to date print the skip line
and return without running the body; when stale print the run message
and await the body once, propagating its failure unchanged.  The body
is modelled by the result value `body` of its single invocation. -/
def runTask {ε : Type} (fs : String → Option FSTree) (task : Task)
    (body : Except ε Unit) : TaskRunOutcome ε :=
  match isStale fs task with
  | .error e => { log := [], bodyRuns := 0, err := some (.inl e) }
  | .ok false => { log := [skipLine task], bodyRuns := 0, err := none }
  | .ok true =>
      { log := [task.runMessage], bodyRuns := 1,
        err := match body with
          | .ok _ => none
          | .error e => some (.inr e) }

/-- The event that settles an executor promise: the `error` event of a
failed spawn (carrying the underlying error), or the `close` event with
the exit code (`none` models `null`, i.e. signal termination) and the
chunks the `data` events delivered on each stream beforehand. -/
inductive ChildOutcome where
  | spawnFailed (err : String)
  | closed (code : Option Int) (stdoutData stderrData : List String)
deriving DecidableEq, Repr

/-- How a JavaScript template literal renders an exit code that may be
`null`. -/
def jsNumOrNull : Option Int → String
  | none => "null"
  | some n => toString n

/-- The streaming executor `run` (build-tools.ts lines 97-114): child
output is forwarded to the parent streams (not modelled further); the
promise resolves on `close` with code `0`, rejects on any other close
code with the formatted command-failure error, and rejects with the
underlying error on a spawn failure. -/
def run (command : String) (args : List String) : ChildOutcome → Except String Unit
  | .spawnFailed err => .error err
  | .closed code _ _ =>
      if code = some 0 then .ok ()
      else .error ("Command [" ++ command ++ " " ++ String.intercalate " " args ++
        "] failed with exit code " ++ jsNumOrNull code)

/-- JavaScript `acc += data` on a `let acc: string;` declared without an
initializer: the accumulator starts as `undefined` (here `none`), and
the first `+=` stringifies it, so the first chunk is prepended with the
text `undefined`. -/
def jsAppendString : Option String → String → Option String
  | none, data => some ("undefined" ++ data)
  | some acc, data => some (acc ++ data)

/-- The record `runCapture` resolves with (the `RunResult` interface,
build-tools.ts lines 116-121).  `stdout` and `stderr` are `Option
String` because the accumulators are declared without an initializer
and stay `undefined` when no `data` event fires. -/
structure RunResult where
  code : Option Int
  stdout : Option String
  stderr : Option String
  cmd : String
deriving DecidableEq, Repr

/-- The capturing executor `runCapture` (build-tools.ts lines 123-144):
accumulates each stream with `+=` into uninitialized accumulators,
always resolves on `close` with the exit code, the accumulated streams
and the formatted command line, and rejects only on a spawn failure. -/
def runCapture (command : String) (args : List String) :
    ChildOutcome → Except String RunResult
  | .spawnFailed err => .error err
  | .closed code stdoutData stderrData =>
      .ok { code := code,
            stdout := stdoutData.foldl jsAppendString none,
            stderr := stderrData.foldl jsAppendString none,
            cmd := command ++ " " ++ String.intercalate " " args }

/-- `Set.add` on a JavaScript `Set<string>`: keep insertion order, skip
values already present. -/
def setAdd (s : List String) (x : String) : List String :=
  if x ∈ s then s else s ++ [x]

/-- The comparison the JavaScript default `Array.prototype.sort` makes
on two strings, on their character lists: strict lexicographic order by
character code (the strings of this repository are ASCII, where UTF-16
code units and Unicode scalar values agree). -/
def strLtAux : List Char → List Char → Bool
  | [], [] => false
  | [], _ :: _ => true
  | _ :: _, [] => false
  | a :: as, b :: bs =>
      if a < b then true
      else if b < a then false
      else strLtAux as bs

/-- Strict lexicographic comparison of strings, see `strLtAux`. -/
def strLt (a b : String) : Bool :=
  strLtAux a.data b.data

/-- `allDepsSorted` (build-tools.ts lines 148-156): collect every
dependency value of every entry of the map into a `Set`, then sort the
set's members ascending (`Array.from(allDepsSet).sort()`, the default
lexicographic string sort, here realised by insertion sort with the
same comparator).  The object is modelled as its ordered entry list. -/
def allDepsSorted (dependencies : List (String × List String)) : List String :=
  let allDepsSet := dependencies.foldl (fun s kv => kv.2.foldl setAdd s) []
  List.insertionSort (fun a b => strLt b a = false) allDepsSet

/-- The directory watermark as claim C1 words it, for comparison with
the implementation's `watermark`: the earliest modification instant
among the regular files recursively beneath the directory, with
directory entries themselves (the directory included) contributing
nothing; `none` when there is no such file. -/
def claimedDirWatermark (children : List FSTree) : Option Int :=
  (regMtimesList children).minimum

/-- Proof-side characterisation: whether one source path makes the
check with the given target watermark report staleness (an existing
plain file strictly newer than the watermark, or an existing directory
with such a regular file beneath it; a missing source never reaches
this point, see `checkSources`). -/
def sourceTriggers (fs : String → Option FSTree) (wm : Int) (s : String) : Bool :=
  match fs s with
  | none => false
  | some e => (sourceMtimes e).any (fun t => t > wm)

/-- Proof-side characterisation: whether one target makes the task
stale (it is absent, or some source is strictly newer than its
watermark). -/
def targetTriggers (fs : String → Option FSTree) (sources : List String) (t : String) : Bool :=
  match fs t with
  | none => true
  | some e => sources.any (sourceTriggers fs (watermark e))

/-- A concrete filesystem for the directory-watermark counterexample:
the target directory has its own modification instant 3 and member
files with instants 5, 7 and 9; the source file has instant 4. -/
def dirPessimismFS : String → Option FSTree := fun p =>
  if p = "out" then some (.dir 3 [.file 5, .file 7, .file 9])
  else if p = "in" then some (.file 4)
  else none

/-- The task over `dirPessimismFS`. -/
def dirPessimismTask : Task :=
  { runMessage := "building out", skipMessage := "build",
    targets := ["out"], sources := ["in"] }

/-- A concrete filesystem where the task's only source is missing while
its target exists. -/
def missingSourceFS : String → Option FSTree := fun p =>
  if p = "out" then some (.file 5) else none

/-- The task over `missingSourceFS`: target `out` exists, source
`missing` does not. -/
def missingSourceTask : Task :=
  { runMessage := "building out", skipMessage := "build",
    targets := ["out"], sources := ["missing"] }

/-- A concrete filesystem where an early source already triggers
staleness, so the missing later source `s2` is never stat-ed. -/
def shortCircuitFS : String → Option FSTree := fun p =>
  if p = "out" then some (.file 5)
  else if p = "s1" then some (.file 10)
  else none

/-- The task over `shortCircuitFS`: source `s1` (instant 10) is newer
than target `out` (instant 5), and source `s2` does not exist. -/
def shortCircuitTask : Task :=
  { runMessage := "building out", skipMessage := "build",
    targets := ["out"], sources := ["s1", "s2"] }

/-- Witness filesystem: target file `o` (instant 5), source file `s`
(instant 7). -/
def plainNewerFS : String → Option FSTree := fun p =>
  if p = "o" then some (.file 5) else if p = "s" then some (.file 7) else none

/-- The task over `plainNewerFS`. -/
def plainNewerTask : Task :=
  { runMessage := "building o", skipMessage := "build",
    targets := ["o"], sources := ["s"] }

/-- Witness filesystem: target `t1` exists, target `t2` is absent, the
source `s` (instant 1) is older than `t1` (instant 5). -/
def absentTargetFS : String → Option FSTree := fun p =>
  if p = "t1" then some (.file 5) else if p = "s" then some (.file 1) else none

/-- The task over `absentTargetFS`: its second target is absent. -/
def absentTargetTask : Task :=
  { runMessage := "building t2", skipMessage := "build",
    targets := ["t1", "t2"], sources := ["s"] }

/-- Witness filesystem: only the target `o` exists. -/
def missingFirstSourceFS : String → Option FSTree := fun p =>
  if p = "o" then some (.file 1) else none

/-- The task over `missingFirstSourceFS`: its first (and only) source
`gone` is missing. -/
def missingFirstSourceTask : Task :=
  { runMessage := "building o", skipMessage := "build",
    targets := ["o"], sources := ["gone"] }

/-- Witness filesystem: target directory `out` (own instant 5) with no
entries beneath it, source file `s` (instant 7). -/
def emptyDirFS : String → Option FSTree := fun p =>
  if p = "out" then some (.dir 5 []) else if p = "s" then some (.file 7) else none

/-- The task over `emptyDirFS`. -/
def emptyDirTask : Task :=
  { runMessage := "building out", skipMessage := "build",
    targets := ["out"], sources := ["s"] }

/-- Witness filesystem on which no path at all exists. -/
def allMissingFS : String → Option FSTree := fun _ => none

/-- The task over `allMissingFS`: its sole target and its sole source
are both absent. -/
def allMissingTask : Task :=
  { runMessage := "building t", skipMessage := "build",
    targets := ["t"], sources := ["s"] }

/-- When every source exists, the source loop never raises and reports
exactly whether some source triggers staleness. -/
theorem checkSources_eq (fs : String → Option FSTree) (wm : Int) (ss : List String)
    (h : ∀ s ∈ ss, (fs s).isSome) :
    checkSources fs wm ss = .ok (ss.any (sourceTriggers fs wm)) := by
  induction ss with
  | nil => rfl
  | cons s rest ih =>
    obtain ⟨e, he⟩ := Option.isSome_iff_exists.mp (h s (List.mem_cons_self s rest))
    have hrest : ∀ x ∈ rest, (fs x).isSome := fun x hx => h x (List.mem_cons_of_mem s hx)
    simp only [checkSources, he, List.any_cons, sourceTriggers]
    cases ha : (sourceMtimes e).any (fun t => t > wm) <;> simp [ha, ih hrest]

/-- A source triggers staleness exactly when it exists and contributes
an instant strictly above the watermark. -/
theorem any_sourceTriggers_iff (fs : String → Option FSTree) (wm : Int) (ss : List String)
    (h : ∀ s ∈ ss, (fs s).isSome) :
    ss.any (sourceTriggers fs wm) = true ↔
      ∃ s ∈ ss, ∃ se, fs s = some se ∧ ∃ t ∈ sourceMtimes se, wm < t := by
  rw [List.any_eq_true]
  constructor
  · rintro ⟨s, hs, htrig⟩
    obtain ⟨se, hse⟩ := Option.isSome_iff_exists.mp (h s hs)
    simp only [sourceTriggers, hse, List.any_eq_true, decide_eq_true_eq] at htrig
    obtain ⟨t, ht, hlt⟩ := htrig
    exact ⟨s, hs, se, hse, t, ht, hlt⟩
  · rintro ⟨s, hs, se, hse, t, ht, hlt⟩
    refine ⟨s, hs, ?_⟩
    simp only [sourceTriggers, hse, List.any_eq_true, decide_eq_true_eq]
    exact ⟨t, ht, hlt⟩

/-- When every source exists, the target loop never raises and reports
exactly whether some target triggers staleness. -/
theorem targetsLoop_eq (fs : String → Option FSTree) (sources ts : List String)
    (hsrc : ∀ s ∈ sources, (fs s).isSome) :
    targetsLoop fs sources ts = .ok (ts.any (targetTriggers fs sources)) := by
  induction ts with
  | nil => rfl
  | cons t rest ih =>
    cases ht : fs t with
    | none => simp [targetsLoop, ht, targetTriggers]
    | some e =>
      simp only [targetsLoop, ht]
      rw [checkSources_eq fs (watermark e) sources hsrc]
      cases ha : sources.any (sourceTriggers fs (watermark e)) <;>
        simp [targetTriggers, ht, ha, ih]

/-- When every source exists, the staleness decision is the boolean:
no declared target, or some target absent or outdated. -/
theorem isStale_eq (fs : String → Option FSTree) (task : Task)
    (hsrc : ∀ s ∈ task.sources, (fs s).isSome) :
    isStale fs task =
      .ok (task.targets.isEmpty || task.targets.any (targetTriggers fs task.sources)) := by
  rcases hts : task.targets with _ | ⟨t, rest⟩
  · simp [isStale, hts]
  · simp only [isStale, hts, List.length_cons, List.isEmpty_cons, Bool.false_or]
    rw [if_neg (by simp)]
    exact targetsLoop_eq fs task.sources (t :: rest) hsrc

/-- An existing target triggers staleness exactly when some existing
source contributes an instant strictly above its watermark. -/
theorem any_targetTriggers_iff (fs : String → Option FSTree) (sources ts : List String)
    (htgt : ∀ t ∈ ts, (fs t).isSome) (hsrc : ∀ s ∈ sources, (fs s).isSome) :
    ts.any (targetTriggers fs sources) = true ↔
      ∃ t ∈ ts, ∃ e, fs t = some e ∧
        ∃ s ∈ sources, ∃ se, fs s = some se ∧
          ∃ mt ∈ sourceMtimes se, watermark e < mt := by
  rw [List.any_eq_true]
  constructor
  · rintro ⟨t, ht, htrig⟩
    obtain ⟨e, he⟩ := Option.isSome_iff_exists.mp (htgt t ht)
    simp only [targetTriggers, he] at htrig
    exact ⟨t, ht, e, he, (any_sourceTriggers_iff fs (watermark e) sources hsrc).mp htrig⟩
  · rintro ⟨t, ht, e, he, hx⟩
    refine ⟨t, ht, ?_⟩
    simp only [targetTriggers, he]
    exact (any_sourceTriggers_iff fs (watermark e) sources hsrc).mpr hx

/-- The fold `runTask` performs over a directory's member instants is
a minimum: it is at most the seed and every member, and it is the seed
or a member. -/
theorem minFold_spec (l : List Int) (init : Int) :
    l.foldl (fun acc t => if acc > t then t else acc) init ≤ init ∧
    (∀ t ∈ l, l.foldl (fun acc t => if acc > t then t else acc) init ≤ t) ∧
    (l.foldl (fun acc t => if acc > t then t else acc) init = init ∨
      l.foldl (fun acc t => if acc > t then t else acc) init ∈ l) := by
  induction l generalizing init with
  | nil => exact ⟨le_rfl, by simp, Or.inl rfl⟩
  | cons t ts ih =>
    simp only [List.foldl_cons]
    have hg1 : (if init > t then t else init) ≤ init := by split <;> omega
    have hg2 : (if init > t then t else init) ≤ t := by split <;> omega
    have hg3 : (if init > t then t else init) = init ∨ (if init > t then t else init) = t := by
      split
      · exact Or.inr rfl
      · exact Or.inl rfl
    obtain ⟨ih1, ih2, ih3⟩ := ih (if init > t then t else init)
    refine ⟨le_trans ih1 hg1, ?_, ?_⟩
    · intro x hx
      rcases List.mem_cons.mp hx with rfl | hx
      · exact le_trans ih1 hg2
      · exact ih2 x hx
    · rcases ih3 with h | h
      · rcases hg3 with h2 | h2
        · exact Or.inl (h.trans h2)
        · exact Or.inr (by rw [h, h2]; exact List.mem_cons_self t ts)
      · exact Or.inr (List.mem_cons_of_mem t h)

/-- The executable comparator agrees with the lexicographic order on
character lists. -/
theorem strLtAux_iff (as bs : List Char) :
    strLtAux as bs = true ↔ List.Lex (fun a b : Char => a < b) as bs := by
  induction as generalizing bs with
  | nil =>
    cases bs with
    | nil => simp [strLtAux]
    | cons b bs => simp [strLtAux]; exact List.Lex.nil
  | cons a as ih =>
    cases bs with
    | nil => simp [strLtAux]
    | cons b bs =>
      simp only [strLtAux]
      by_cases hab : a < b
      · simp only [hab, if_true, true_iff]
        exact List.Lex.rel hab
      · by_cases hba : b < a
        · rw [if_neg hab, if_pos hba]
          refine iff_of_false (by simp) ?_
          intro h
          cases h with
          | rel h => exact hab h
          | cons h => exact lt_irrefl a hba
        · have heq : a = b := le_antisymm (not_lt.mp hba) (not_lt.mp hab)
          subst heq
          rw [if_neg hab, if_neg hab, ih bs]
          constructor
          · exact fun h => List.Lex.cons h
          · intro h
            cases h with
            | rel h => exact absurd h hab
            | cons h => exact h

/-- The executable comparator agrees with the lexicographic order on
strings. -/
theorem strLt_iff (a b : String) : strLt a b = true ↔ a < b := by
  rw [String.lt_iff_toList_lt]
  exact strLtAux_iff a.data b.data

/-- The comparator reports `false` exactly for the complementary
non-strict order, i.e. `strLt b a = false` means `a ≤ b`. -/
theorem strLt_false_iff_le (a b : String) : strLt b a = false ↔ a ≤ b := by
  rw [← not_lt, ← strLt_iff]
  cases strLt b a <;> simp

/-- Membership in the `Set`-building inner fold. -/
theorem mem_setAdd_foldl (l : List String) (acc : List String) (x : String) :
    x ∈ l.foldl setAdd acc ↔ x ∈ acc ∨ x ∈ l := by
  induction l generalizing acc with
  | nil => simp
  | cons y ys ih =>
    rw [List.foldl_cons, ih]
    unfold setAdd
    by_cases hy : y ∈ acc
    · simp only [hy, if_true, List.mem_cons]
      constructor
      · rintro (h | h)
        · exact Or.inl h
        · exact Or.inr (Or.inr h)
      · rintro (h | rfl | h)
        · exact Or.inl h
        · exact Or.inl hy
        · exact Or.inr h
    · rw [if_neg hy]
      simp only [List.mem_append, List.mem_cons, List.not_mem_nil, or_false]
      tauto

/-- Membership in the full `Set`-building fold over the dependency
map. -/
theorem mem_depsFold (deps : List (String × List String)) (acc : List String) (x : String) :
    x ∈ deps.foldl (fun s kv => kv.2.foldl setAdd s) acc ↔
      x ∈ acc ∨ ∃ kv ∈ deps, x ∈ kv.2 := by
  induction deps generalizing acc with
  | nil => simp
  | cons kv rest ih =>
    rw [List.foldl_cons, ih, mem_setAdd_foldl]
    constructor
    · rintro ((h | h) | ⟨kv2, h2, h3⟩)
      · exact Or.inl h
      · exact Or.inr ⟨kv, List.mem_cons_self kv rest, h⟩
      · exact Or.inr ⟨kv2, List.mem_cons_of_mem kv h2, h3⟩
    · rintro (h | ⟨kv2, h2, h3⟩)
      · exact Or.inl (Or.inl h)
      · rcases List.mem_cons.mp h2 with rfl | h2
        · exact Or.inl (Or.inr h3)
        · exact Or.inr ⟨kv2, h2, h3⟩

/-- The inner fold keeps the accumulator duplicate-free. -/
theorem nodup_setAdd_foldl (l : List String) (acc : List String) (h : acc.Nodup) :
    (l.foldl setAdd acc).Nodup := by
  induction l generalizing acc with
  | nil => exact h
  | cons y ys ih =>
    rw [List.foldl_cons]
    refine ih _ ?_
    unfold setAdd
    by_cases hy : y ∈ acc
    · simpa [hy] using h
    · rw [if_neg hy]
      simp [List.nodup_append, h, hy]

/-- The full fold keeps the accumulator duplicate-free. -/
theorem nodup_depsFold (deps : List (String × List String)) (acc : List String)
    (h : acc.Nodup) :
    (deps.foldl (fun s kv => kv.2.foldl setAdd s) acc).Nodup := by
  induction deps generalizing acc with
  | nil => exact h
  | cons kv rest ih => exact ih _ (nodup_setAdd_foldl kv.2 acc h)

/-- C1 (counterexample): for a target directory with its own
modification instant 3 and member files with instants 5, 7 and 9, the
watermark used by `runTask` is 3 — the directory's own instant takes
part in the minimum — not the members-only minimum 5 the claim states;
behaviourally, a source with instant 4 makes the task stale, although
under the claimed watermark 5 an instant of 4 is not strictly newer. -/
theorem watermark_uses_dir_own_mtime_cex :
    watermark (.dir 3 [.file 5, .file 7, .file 9]) = 3 ∧
    claimedDirWatermark [.file 5, .file 7, .file 9] = some 5 ∧
    watermark (.dir 3 [.file 5, .file 7, .file 9]) ≠ 5 ∧
    isStale dirPessimismFS dirPessimismTask = .ok true ∧
    ¬ ((4 : Int) > 5) :=
  ⟨rfl, rfl, by decide, rfl, by decide⟩

/-- C1 (amended): for a target directory, the staleness watermark used
by `runTask` is the minimum of the directory's own modification
instant and the modification instants of the regular files recursively
enumerated beneath it (nested directory entries still contribute
nothing): it is at most the directory's own instant and at most every
member file instant, and it equals one of them. -/
theorem watermark_dir_min (m : Int) (children : List FSTree) :
    watermark (.dir m children) ≤ m ∧
    (∀ t ∈ regMtimesList children, watermark (.dir m children) ≤ t) ∧
    (watermark (.dir m children) = m ∨
      watermark (.dir m children) ∈ regMtimesList children) := by
  simp only [watermark]
  exact minFold_spec (regMtimesList children) m

/-- Witness for C1 at the concrete directory (own instant 3, members
with instants 5, 7, 9): the watermark is at most the member instant 5,
and it is exactly 3. -/
theorem watermark_dir_min_witness :
    watermark (.dir 3 [.file 5, .file 7, .file 9]) ≤ 5 ∧
    watermark (.dir 3 [.file 5, .file 7, .file 9]) = 3 :=
  ⟨(watermark_dir_min 3 [.file 5, .file 7, .file 9]).2.1 5 (by decide), rfl⟩

/-- C2: for a task with a nonempty target list in which every target
and every source exists, the staleness check succeeds and reports
stale exactly when some source — itself for a plain file, some regular
file recursively beneath it for a directory — has a modification
instant strictly greater than some target's watermark; with only ties
or older source instants the task is up to date. -/
theorem isStale_iff_some_source_newer (fs : String → Option FSTree) (task : Task)
    (hne : task.targets ≠ [])
    (htgt : ∀ t ∈ task.targets, (fs t).isSome)
    (hsrc : ∀ s ∈ task.sources, (fs s).isSome) :
    (isStale fs task = .ok true ∨ isStale fs task = .ok false) ∧
    (isStale fs task = .ok true ↔
      ∃ t ∈ task.targets, ∃ e, fs t = some e ∧
        ∃ s ∈ task.sources, ∃ se, fs s = some se ∧
          ∃ mt ∈ sourceMtimes se, watermark e < mt) := by
  have he := isStale_eq fs task hsrc
  have hni : task.targets.isEmpty = false := by
    cases h : task.targets with
    | nil => exact absurd h hne
    | cons a l => rfl
  rw [hni, Bool.false_or] at he
  have hiff := any_targetTriggers_iff fs task.sources task.targets htgt hsrc
  constructor
  · cases hb : task.targets.any (targetTriggers fs task.sources)
    · right
      rw [he, hb]
    · left
      rw [he, hb]
  · rw [he]
    simp only [Except.ok.injEq]
    exact hiff

/-- Witness for C2: a target file with instant 5 and a source file with
instant 7 make the task stale. -/
theorem isStale_iff_some_source_newer_witness :
    isStale plainNewerFS plainNewerTask = .ok true :=
  ((isStale_iff_some_source_newer plainNewerFS plainNewerTask
      (by decide) (by decide) (by decide)).2).mpr
    ⟨"o", by decide, .file 5, rfl, "s", by decide, .file 7, rfl, 7, by decide, by decide⟩

/-- C3: a task with no declared targets, or with some declared target
absent from the filesystem (every source existing), is judged stale and
its body is executed, whatever the source instants are. -/
theorem runTask_runs_when_no_or_absent_target {ε : Type} (fs : String → Option FSTree)
    (task : Task) (body : Except ε Unit)
    (h : task.targets = [] ∨ ∃ t ∈ task.targets, fs t = none)
    (hsrc : ∀ s ∈ task.sources, (fs s).isSome) :
    isStale fs task = .ok true ∧
    runTask fs task body =
      { log := [task.runMessage], bodyRuns := 1,
        err := match body with
          | .ok _ => none
          | .error e => some (.inr e) } := by
  have hst : isStale fs task = .ok true := by
    rcases h with h | ⟨t, ht, hnone⟩
    · simp [isStale, h]
    · rw [isStale_eq fs task hsrc]
      have hany : task.targets.any (targetTriggers fs task.sources) = true :=
        List.any_eq_true.mpr ⟨t, ht, by simp [targetTriggers, hnone]⟩
      rw [hany]
      simp
  exact ⟨hst, by simp [runTask, hst]⟩

/-- Witness for C3: the second target `t2` is absent, the source is
older than the first target, and the body still runs. -/
theorem runTask_runs_when_no_or_absent_target_witness :
    runTask absentTargetFS absentTargetTask (Except.ok () : Except Unit Unit) =
      { log := ["building t2"], bodyRuns := 1, err := none } := by
  have h := runTask_runs_when_no_or_absent_target absentTargetFS absentTargetTask
    (Except.ok () : Except Unit Unit) (Or.inr ⟨"t2", by decide, rfl⟩) (by decide)
  simpa using h.2

/-- C4 (counterexample): on a task whose target exists but whose only
source is missing, `runTask` neither skips with the skip line nor runs
the body: it emits nothing, runs the body zero times, and propagates a
failure of its own even though the body itself succeeds. -/
theorem runTask_own_failure_cex :
    runTask missingSourceFS missingSourceTask (Except.ok () : Except Unit Unit) =
      { log := [], bodyRuns := 0, err := some (Sum.inl (.enoent "missing")) } ∧
    (some (Sum.inl (FsError.enoent "missing")) : Option (FsError ⊕ Unit)) ≠ none :=
  ⟨rfl, by decide⟩

/-- C4 (amended): when every declared source exists, `runTask` either
finds the task up to date, emits exactly the skip line naming the
joined target list, and never invokes the body, or finds it stale,
emits exactly the run message, invokes the body exactly once, and
propagates the body's failure unchanged, introducing no failure of its
own. -/
theorem runTask_skip_or_run {ε : Type} (fs : String → Option FSTree) (task : Task)
    (body : Except ε Unit)
    (hsrc : ∀ s ∈ task.sources, (fs s).isSome) :
    runTask fs task body = { log := [skipLine task], bodyRuns := 0, err := none } ∨
    runTask fs task body =
      { log := [task.runMessage], bodyRuns := 1,
        err := match body with
          | .ok _ => none
          | .error e => some (.inr e) } := by
  have he := isStale_eq fs task hsrc
  cases hb : (task.targets.isEmpty || task.targets.any (targetTriggers fs task.sources))
  · left
    rw [hb] at he
    simp [runTask, he]
  · right
    rw [hb] at he
    simp [runTask, he]

/-- Witness for C4 on the task whose target and source both exist. -/
theorem runTask_skip_or_run_witness :
    runTask plainNewerFS plainNewerTask (Except.ok () : Except Unit Unit) =
      { log := [skipLine plainNewerTask], bodyRuns := 0, err := none } ∨
    runTask plainNewerFS plainNewerTask (Except.ok () : Except Unit Unit) =
      { log := [plainNewerTask.runMessage], bodyRuns := 1, err := none } := by
  have h := runTask_skip_or_run plainNewerFS plainNewerTask
    (Except.ok () : Except Unit Unit) (by decide)
  simpa using h

/-- C5 (code bug, evaluated at the failing input): for a successfully
spawned child that writes `hello` to stdout, nothing to stderr, and
exits 0, the capturing executor does resolve with the exit code and
the original command line, but its `stdout` field is `undefinedhello`
rather than the accumulated stream text `hello`, and its `stderr`
field is the untouched `undefined` accumulator rather than the empty
accumulated text: the accumulators are declared without initializers,
so the first `+=` stringifies `undefined` into the buffer. -/
theorem runCapture_stdout_not_accumulated :
    runCapture "echo" ["hello"] (.closed (some 0) ["hello"] []) =
      .ok { code := some 0, stdout := some "undefinedhello", stderr := none,
            cmd := "echo hello" } ∧
    some "undefinedhello" ≠ some "hello" :=
  ⟨rfl, by decide⟩

/-- C6: the streaming executor resolves exactly when the child closed
with exit code 0; on any other close code it rejects with the error
that embeds the command, the joined arguments and the code, and on a
spawn failure it rejects with the underlying error. -/
theorem run_resolves_iff_exit_zero (command : String) (args : List String)
    (outcome : ChildOutcome) :
    (run command args outcome = .ok () ↔
      ∃ stdoutData stderrData, outcome = .closed (some 0) stdoutData stderrData) ∧
    (∀ code stdoutData stderrData,
      outcome = .closed code stdoutData stderrData → code ≠ some 0 →
        run command args outcome = .error ("Command [" ++ command ++ " " ++
          String.intercalate " " args ++ "] failed with exit code " ++ jsNumOrNull code)) ∧
    (∀ err, outcome = .spawnFailed err → run command args outcome = .error err) := by
  refine ⟨?_, ?_, ?_⟩
  · constructor
    · intro h
      cases outcome with
      | spawnFailed e => simp [run] at h
      | closed code o e =>
        by_cases hc : code = some 0
        · exact ⟨o, e, by rw [hc]⟩
        · simp [run, hc] at h
    · rintro ⟨o, e, rfl⟩
      simp [run]
  · rintro code o e rfl hc
    simp [run, hc]
  · rintro err rfl
    rfl

/-- Witness for C6: close with exit code 2 rejects with the message
embedding the command and the code 2; close with exit code 0
resolves. -/
theorem run_resolves_iff_exit_zero_witness :
    run "false" [] (.closed (some 2) [] []) =
      .error "Command [false ] failed with exit code 2" ∧
    run "true" [] (.closed (some 0) [] []) = .ok () := by
  constructor
  · have h := (run_resolves_iff_exit_zero "false" [] (.closed (some 2) [] [])).2.1
      (some 2) [] [] rfl (by decide)
    simpa using h
  · exact (run_resolves_iff_exit_zero "true" [] (.closed (some 0) [] [])).1.mpr ⟨[], [], rfl⟩

/-- C7: `allDepsSorted` returns exactly the strings that occur as a
dependency value in some entry of the map (keys as such are excluded),
each exactly once, in strictly ascending lexicographic order; on
`[("A", ["B", "C"]), ("D", ["C"])]` it returns `["B", "C"]`. -/
theorem allDepsSorted_spec (dependencies : List (String × List String)) :
    (∀ x, x ∈ allDepsSorted dependencies ↔ ∃ kv ∈ dependencies, x ∈ kv.2) ∧
    (allDepsSorted dependencies).Nodup ∧
    List.Sorted (fun a b : String => a < b) (allDepsSorted dependencies) ∧
    allDepsSorted [("A", ["B", "C"]), ("D", ["C"])] = ["B", "C"] := by
  have hperm : List.Perm
      (List.insertionSort (fun a b : String => strLt b a = false)
        (dependencies.foldl (fun s kv => kv.2.foldl setAdd s) ([] : List String)))
      (dependencies.foldl (fun s kv => kv.2.foldl setAdd s) ([] : List String)) :=
    List.perm_insertionSort (fun a b : String => strLt b a = false)
      (dependencies.foldl (fun s kv => kv.2.foldl setAdd s) ([] : List String))
  have hnodupSet : (dependencies.foldl (fun s kv => kv.2.foldl setAdd s) ([] : List String)).Nodup :=
    nodup_depsFold dependencies [] List.nodup_nil
  have hnodup : (allDepsSorted dependencies).Nodup := hperm.nodup_iff.mpr hnodupSet
  have hmem : ∀ x, x ∈ allDepsSorted dependencies ↔ ∃ kv ∈ dependencies, x ∈ kv.2 := by
    intro x
    rw [show (x ∈ allDepsSorted dependencies) =
        (x ∈ List.insertionSort (fun a b : String => strLt b a = false)
          (dependencies.foldl (fun s kv => kv.2.foldl setAdd s) ([] : List String))) from rfl,
      hperm.mem_iff, mem_depsFold]
    simp
  letI : IsTotal String (fun a b : String => strLt b a = false) :=
    ⟨fun a b => by
      rcases le_total a b with h | h
      · exact Or.inl ((strLt_false_iff_le a b).mpr h)
      · exact Or.inr ((strLt_false_iff_le b a).mpr h)⟩
  letI : IsTrans String (fun a b : String => strLt b a = false) :=
    ⟨fun a b c hab hbc => (strLt_false_iff_le a c).mpr
      (le_trans ((strLt_false_iff_le a b).mp hab) ((strLt_false_iff_le b c).mp hbc))⟩
  have hsorted : List.Sorted (fun a b : String => strLt b a = false)
      (allDepsSorted dependencies) := by
    show List.Sorted (fun a b : String => strLt b a = false)
      (List.insertionSort (fun a b : String => strLt b a = false)
        (dependencies.foldl (fun s kv => kv.2.foldl setAdd s) ([] : List String)))
    exact List.sorted_insertionSort (fun a b : String => strLt b a = false)
      (dependencies.foldl (fun s kv => kv.2.foldl setAdd s) ([] : List String))
  have hsortedLe : List.Sorted (fun a b : String => a ≤ b) (allDepsSorted dependencies) :=
    List.Pairwise.imp (fun h => (strLt_false_iff_le _ _).mp h) hsorted
  exact ⟨hmem, hnodup, hsortedLe.lt_of_le hnodup, by decide⟩

/-- C8 (counterexample): the task over `shortCircuitFS` declares the
missing source `s2`, yet evaluating its staleness is not an error: the
earlier source `s1` already triggers staleness and the check
short-circuits before ever stat-ing `s2`, so the task simply runs. -/
theorem missing_source_not_always_error_cex :
    shortCircuitTask.sources = ["s1", "s2"] ∧
    shortCircuitFS "s2" = none ∧
    isStale shortCircuitFS shortCircuitTask = .ok true :=
  ⟨rfl, rfl, rfl⟩

/-- C8 (amended): a missing source is an error exactly when the check
consults it; in particular, for a task with at least one declared
target whose first target exists, a missing first source makes the
staleness evaluation fail with the filesystem error naming that
source, which propagates — the task is treated neither as stale nor as
up to date. -/
theorem isStale_errors_on_missing_first_source (fs : String → Option FSTree)
    (task : Task) (t : String) (rest : List String) (s : String) (srest : List String)
    (htgt : task.targets = t :: rest) (hex : (fs t).isSome)
    (hsrcs : task.sources = s :: srest) (hmiss : fs s = none) :
    isStale fs task = .error (.enoent s) := by
  obtain ⟨e, he⟩ := Option.isSome_iff_exists.mp hex
  simp [isStale, htgt, targetsLoop, he, hsrcs, checkSources, hmiss]

/-- Witness for C8: target `o` exists, the only source `gone` does
not, and staleness evaluation fails with the error naming `gone`. -/
theorem isStale_errors_on_missing_first_source_witness :
    isStale missingFirstSourceFS missingFirstSourceTask = .error (.enoent "gone") :=
  isStale_errors_on_missing_first_source missingFirstSourceFS missingFirstSourceTask
    "o" [] "gone" [] rfl (by decide) rfl rfl

/-- C9: an existing directory target with no regular files beneath it
is treated as present — not as absent, not as unconditionally stale —
and its own modification instant is the watermark: with such a sole
target and every source existing, the task is stale exactly when some
source instant strictly exceeds the directory's own instant. -/
theorem emptyDir_target_uses_own_mtime (fs : String → Option FSTree) (task : Task)
    (d : String) (m : Int) (cs : List FSTree)
    (htgts : task.targets = [d]) (hd : fs d = some (.dir m cs))
    (hempty : regMtimesList cs = [])
    (hsrc : ∀ s ∈ task.sources, (fs s).isSome) :
    watermark (.dir m cs) = m ∧
    (isStale fs task = .ok true ↔
      ∃ s ∈ task.sources, ∃ se, fs s = some se ∧ ∃ mt ∈ sourceMtimes se, m < mt) := by
  have hwm : watermark (.dir m cs) = m := by
    simp [watermark, hempty]
  refine ⟨hwm, ?_⟩
  rw [isStale_eq fs task hsrc, htgts]
  simp only [List.isEmpty_cons, List.any_cons, List.any_nil, Bool.or_false, Bool.false_or]
  simp only [targetTriggers, hd]
  rw [hwm]
  simp only [Except.ok.injEq]
  exact any_sourceTriggers_iff fs m task.sources hsrc

/-- Witness for C9: the empty directory `out` has own instant 5 and
the source `s` instant 7, so the watermark is 5 and the task is
stale. -/
theorem emptyDir_target_uses_own_mtime_witness :
    watermark (.dir 5 []) = 5 ∧ isStale emptyDirFS emptyDirTask = .ok true := by
  have h := emptyDir_target_uses_own_mtime emptyDirFS emptyDirTask "out" 5 []
    rfl rfl rfl (by decide)
  exact ⟨h.1, h.2.mpr ⟨"s", by decide, .file 7, rfl, 7, by decide, by decide⟩⟩

/-- C10: with no declared targets, or with the first declared target
absent, `runTask` decides to run and executes the body without
consulting any source path: the conclusion holds for every filesystem
with no assumption on the sources, so even entirely missing sources
raise no error, and the only propagated failure is the body's. -/
theorem runTask_runs_without_touching_sources {ε : Type} (fs : String → Option FSTree)
    (task : Task) (body : Except ε Unit)
    (h : task.targets = [] ∨ ∃ t rest, task.targets = t :: rest ∧ fs t = none) :
    isStale fs task = .ok true ∧
    runTask fs task body =
      { log := [task.runMessage], bodyRuns := 1,
        err := match body with
          | .ok _ => none
          | .error e => some (.inr e) } := by
  have hst : isStale fs task = .ok true := by
    rcases h with h | ⟨t, rest, ht, hnone⟩
    · simp [isStale, h]
    · simp [isStale, ht, targetsLoop, hnone]
  exact ⟨hst, by simp [runTask, hst]⟩

/-- Witness for C10: every path is missing, including the source `s`;
the task still runs, no filesystem error is raised, and the body's own
failure is what propagates. -/
theorem runTask_runs_without_touching_sources_witness :
    isStale allMissingFS allMissingTask = .ok true ∧
    runTask allMissingFS allMissingTask (Except.error "boom" : Except String Unit) =
      { log := ["building t"], bodyRuns := 1, err := some (Sum.inr "boom") } := by
  have h := runTask_runs_without_touching_sources allMissingFS allMissingTask
    (Except.error "boom" : Except String Unit) (Or.inr ⟨"t", [], rfl, rfl⟩)
  exact ⟨h.1, by simpa using h.2⟩

end BuildTools
